import Mathlib

/-!
Shallow embedding of the generation-and-storage orchestration pipeline of
the repository (src/App.tsx and src/utils/file.ts), together with proofs
checking the specification's claims against it.

Conventions of the embedding:
* JavaScript strings are modelled as Lean `String` / `List Char`; every
  character the pipeline manipulates is ASCII, where the two models agree.
* A JavaScript value that may be `undefined`/`null` is an `Option`.
* A thrown exception is an explicit error constructor in the result type.
* Byte buffers are `List Nat` (each entry < 256 by construction of the
  base64 decoder).
-/

namespace SpecCheck

/-! ### NameSanitizer: `sanitizeFileName` from src/utils/file.ts

The source is
`name.replace(/[^a-z0-9]/gi, '_').replace(/_+/g, '_').replace(/^_|_$/g, '')
     .toLowerCase().slice(0, 50)`.
Character classes are expressed through code points: `a`-`z` is 97..122,
`A`-`Z` is 65..90, `0`-`9` is 48..57, `_` is 95. -/

/-- Test for a lowercase ASCII letter (code points 97..122). -/
def isLowerAZ (c : Char) : Bool := 97 ≤ c.toNat && c.toNat ≤ 122

/-- Test for an uppercase ASCII letter (code points 65..90). -/
def isUpperAZ (c : Char) : Bool := 65 ≤ c.toNat && c.toNat ≤ 90

/-- Test for an ASCII digit (code points 48..57). -/
def isDigit09 (c : Char) : Bool := 48 ≤ c.toNat && c.toNat ≤ 57

/-- Character class `[a-z0-9]` with the `i` flag, i.e. `[A-Za-z0-9]`. -/
def isAlnumAscii (c : Char) : Bool := isLowerAZ c || isUpperAZ c || isDigit09 c

/-- One character of `replace(/[^a-z0-9]/gi, '_')`: a character outside
`[A-Za-z0-9]` becomes an underscore, all others are kept. -/
def toUnderscore (c : Char) : Char := if isAlnumAscii c then c else '_'

/-- The global replacement `replace(/_+/g, '_')`: every maximal run of
underscores collapses to a single underscore. -/
def collapseUnderscores : List Char → List Char
  | [] => []
  | [c] => [c]
  | a :: b :: rest =>
      if a = '_' && b = '_' then collapseUnderscores (b :: rest)
      else a :: collapseUnderscores (b :: rest)

/-- The `^_` alternative of `replace(/^_|_$/g, '')`: drop one leading
underscore when present. -/
def stripLeading (l : List Char) : List Char :=
  match l with
  | [] => []
  | c :: rest => if c = '_' then rest else c :: rest

/-- The `_$` alternative of `replace(/^_|_$/g, '')`: drop one trailing
underscore when present. -/
def stripTrailing (l : List Char) : List Char :=
  if l.getLast? = some '_' then l.dropLast else l

/-- ASCII-range model of `toLowerCase()`: `A`-`Z` shift down by 32, every
other character is unchanged.  The pipeline applies it only to strings of
underscores and ASCII alphanumerics, where this agrees with JavaScript. -/
def toLowerAscii (c : Char) : Char :=
  if isUpperAZ c then Char.ofNat (c.toNat + 32) else c

/-- The sanitizer of src/utils/file.ts: replace non-alphanumerics by `_`,
collapse `_` runs, strip a leading and a trailing `_`, lowercase, and keep
the first 50 characters (`slice(0, 50)`). -/
def sanitizeFileName (name : String) : String :=
  String.mk
    (((stripTrailing (stripLeading
        (collapseUnderscores (name.data.map toUnderscore)))).map toLowerAscii).take 50)

/-! ### Predicates describing storage keys -/

/-- Characters allowed in a sanitized key: lowercase alphanumerics and `_`. -/
def isKeyChar (c : Char) : Bool := isLowerAZ c || isDigit09 c || c = '_'

/-- No two adjacent characters are both underscores. -/
def noDouble : List Char → Bool
  | [] => true
  | [_] => true
  | a :: b :: rest => !(a = '_' && b = '_') && noDouble (b :: rest)

/-- Decidable form of the regular expression
`[a-z0-9]+(_[a-z0-9]+)*` anchored at both ends: nonempty, only lowercase
alphanumerics and underscores, no leading underscore, no trailing
underscore, and no two adjacent underscores. -/
def matchesKeyPattern (l : List Char) : Bool :=
  !l.isEmpty && l.all isKeyChar && !(l.head? = some '_') &&
    !(l.getLast? = some '_') && noDouble l

/-- Variant of `matchesKeyPattern` that tolerates one trailing underscore:
the anchored regular expression `[a-z0-9]+(_[a-z0-9]+)*_?`. -/
def matchesKeyPatternLoose (l : List Char) : Bool :=
  !l.isEmpty && l.all isKeyChar && !(l.head? = some '_') && noDouble l

/-- Twenty-six letters `a` separated by single spaces (51 characters).
After replacement and collapsing the normalized form is `a_a_..._a`
(51 characters) with no leading or trailing underscore, and `slice(0, 50)`
cuts it right after an underscore. -/
def alternatingInput : String :=
  "a a a a a a a a a a a a a a a a a a a a a a a a a a"


/-! ### BinaryTranscoder: base64 decoding and the data-URI strip

`handleSaveImage` computes
`generatedImage.replace(/^data:image\/\w+;base64,/, "")` and feeds the
result to the platform's `atob`, reading the decoded string's char codes
into a byte array. -/

/-- Word character `\w` of the JavaScript regular expression engine:
`[A-Za-z0-9_]`. -/
def isWordChar (c : Char) : Bool := isAlnumAscii c || c = '_'

/-- One replacement step of `replace(/^data:image\/\w+;base64,/, "")`:
when the string starts with `data:image/`, then one or more word
characters, then `;base64,`, that prefix is removed; otherwise the string
is returned unchanged.  Because `;` is not a word character, the greedy
`\w+` always stops exactly at the first non-word character, so this
deterministic reading coincides with the regex. -/
def stripDataUri (l : List Char) : List Char :=
  if l.take 11 = "data:image/".data then
    let rest := l.drop 11
    let w := rest.takeWhile isWordChar
    if !w.isEmpty && (rest.drop w.length).take 8 = ";base64,".data then
      (rest.drop w.length).drop 8
    else l
  else l

/-- Value of one base64 alphabet character, `none` outside the alphabet. -/
def b64Index (c : Char) : Option Nat :=
  if 65 ≤ c.toNat && c.toNat ≤ 90 then some (c.toNat - 65)
  else if 97 ≤ c.toNat && c.toNat ≤ 122 then some (c.toNat - 71)
  else if 48 ≤ c.toNat && c.toNat ≤ 57 then some (c.toNat + 4)
  else if c = '+' then some 62
  else if c = '/' then some 63
  else none

/-- Decode a sextet stream into bytes: each full group of four sextets
yields three bytes, a trailing pair yields one byte, a trailing triple
yields two, and a single leftover sextet is a decode error. -/
def sextetsToBytes : List Nat → Option (List Nat)
  | [] => some []
  | [_] => none
  | [a, b] => some [a * 4 + b / 16]
  | [a, b, c] => some [a * 4 + b / 16, b % 16 * 16 + c / 4]
  | a :: b :: c :: d :: rest =>
      match sextetsToBytes rest with
      | none => none
      | some bs => some ((a * 4 + b / 16) :: (b % 16 * 16 + c / 4) :: (c % 4 * 64 + d) :: bs)

/-- ASCII whitespace tolerated by forgiving base64 decoding. -/
def isAsciiWhitespace (c : Char) : Bool :=
  c = ' ' || c = '\t' || c = '\n' || c = '\x0d' || c = '\x0c'

/-- Remove up to two trailing padding characters. -/
def stripPad (l : List Char) : List Char :=
  match l.getLast? with
  | some '=' =>
      let l1 := l.dropLast
      match l1.getLast? with
      | some '=' => l1.dropLast
      | _ => l1
  | _ => l

/-- Map every character to its base64 value, failing on the first
character outside the alphabet. -/
def charsToSextets : List Char → Option (List Nat)
  | [] => some []
  | c :: rest =>
      match b64Index c, charsToSextets rest with
      | some v, some vs => some (v :: vs)
      | _, _ => none

/-- Model of the platform's `atob` (forgiving base64 decode): drop ASCII
whitespace, strip up to two `=` padders when the length is a multiple of
four, then map characters to sextets and regroup into bytes; `none` models
the thrown `InvalidCharacterError`. -/
def atob (l : List Char) : Option (List Nat) :=
  let cleaned := l.filter (fun c => !isAsciiWhitespace c)
  let unpadded := if cleaned.length % 4 = 0 then stripPad cleaned else cleaned
  match charsToSextets unpadded with
  | none => none
  | some sextets => sextetsToBytes sextets

/-- Bytes uploaded by the save flow for a given image string: the data-URI
prefix is stripped and the remainder is base64-decoded. -/
def toBytes (s : String) : Option (List Nat) :=
  atob (stripDataUri s.data)


/-! ### StorageGateway and GalleryAssembler: `fetchImages` from src/App.tsx -/

/-- Result of one `createSignedUrl` call: `failure` models a non-null
`signedUrlError`; `success u` carries `signedUrlData?.signedUrl`, with
`none` standing for an absent field (the code then falls back to `""`). -/
inductive SignedUrlResult where
  | failure
  | success (url : Option String)
  deriving DecidableEq

/-- Body of the `data.map` callback in `fetchImages`: the placeholder name
`.emptyFolderPlaceholder` maps to `""`; a signed-URL error maps to `""`;
otherwise the signed URL (or `""` when the field is absent) is returned. -/
def resolveImage (resolve : String → SignedUrlResult) (name : String) : String :=
  if name = ".emptyFolderPlaceholder" then ""
  else
    match resolve name with
    | .failure => ""
    | .success u => u.getD ""

/-- The whole `fetchImages` flow as a state transformer on the displayed
image list: a listing error (`listError`) or a null `data` leaves the
previous list `prev` unchanged (the early `return`s); otherwise the
displayed list becomes the resolution of every listed name, in listing
order, applied in one `setImages` call after `Promise.all` completes. -/
def fetchImages (listError : Bool) (data : Option (List String))
    (resolve : String → SignedUrlResult) (prev : List String) : List String :=
  if listError then prev
  else
    match data with
    | none => prev
    | some images => images.map (resolveImage resolve)

/-! ### GenerationClient and generate flow: `handleGenerateImage` -/

/-- One element of the `artifacts` array.  `base64 = none` models an
object whose `base64` field is absent (reading it yields `undefined`). -/
structure Artifact where
  base64 : Option String
  seed : Int
  finishReason : String
  deriving DecidableEq

/-- Parsed JSON body of the generation response; `artifacts = none`
models a body with no `artifacts` array. -/
structure GenerationBody where
  artifacts : Option (List Artifact)
  deriving DecidableEq

/-- The settled `fetch` response: its `ok` flag and, when `response.json()`
resolves, the parsed body (`none` models a body that is not valid JSON, so
`response.json()` rejects). -/
structure GenerationHttpResponse where
  ok : Bool
  body : Option GenerationBody
  deriving DecidableEq

/-- How the generate flow can fail: `generationError` is the explicitly
thrown `Error` for a non-ok status; `scriptError` is an engine-raised
exception (JSON parse rejection or a property access on `undefined`). -/
inductive GenFlowError where
  | generationError
  | scriptError
  deriving DecidableEq

/-- Observable outcome of `handleGenerateImage`: the value stored into
`generatedImage` on success or the escaped error, together with the final
`isLoading` flag. -/
structure GenFlowResult where
  outcome : Except GenFlowError String
  isLoading : Bool

/-- JavaScript string interpolation of `artifacts[0].base64`: an absent
field interpolates as the literal `undefined`. -/
def jsBase64Text (a : Artifact) : String :=
  match a.base64 with
  | some s => s
  | none => "undefined"

/-- The generate flow of src/App.tsx after the `fetch` settles.
`setIsLoading(true)` has run; on `!response.ok` the code sets the flag
back to `false` and throws; a JSON rejection or a missing/empty
`artifacts` array throws out of the async function with the flag still
`true`; otherwise `generatedImage` is set to the data URI built from the
first artifact and the flag is cleared. -/
def handleGenerateImage (resp : GenerationHttpResponse) : GenFlowResult :=
  if !resp.ok then { outcome := .error .generationError, isLoading := false }
  else
    match resp.body with
    | none => { outcome := .error .scriptError, isLoading := true }
    | some body =>
        match body.artifacts with
        | none => { outcome := .error .scriptError, isLoading := true }
        | some [] => { outcome := .error .scriptError, isLoading := true }
        | some (a :: _) =>
            { outcome := .ok ("data:image/png;base64," ++ jsBase64Text a),
              isLoading := false }

/-! ### Save flow: `handleSaveImage` -/

/-- Arguments of the `upload` call made by the save flow. -/
structure UploadCall where
  key : String
  bytes : List Nat
  contentType : String
  deriving DecidableEq

/-- Observable outcome of `handleSaveImage`: `noop` is the early return
without a generated image; `decodeFailure` is the uncaught `atob`
exception; `saved call uploadOk` records the upload call that was made and
whether the store reported success — both upload outcomes end in `saved`,
never in a thrown error, matching the `if (error) console.error else
console.log` handling. -/
inductive SaveOutcome where
  | noop
  | decodeFailure
  | saved (call : UploadCall) (uploadOk : Bool)
  deriving DecidableEq

/-- The save flow of src/App.tsx: no-op when `generatedImage` is null;
otherwise derive the key with `sanitizeFileName(prompt)`, strip the
data-URI prefix, `atob`-decode into bytes, and upload them under that key
with content type `image/png`; `uploadFails` tells whether the store
returns an error, which is only logged. -/
def handleSaveImage (generatedImage : Option String) (prompt : String)
    (uploadFails : Bool) : SaveOutcome :=
  match generatedImage with
  | none => .noop
  | some img =>
      match atob (stripDataUri img.data) with
      | none => .decodeFailure
      | some bytes =>
          .saved { key := sanitizeFileName prompt, bytes := bytes,
                   contentType := "image/png" } (!uploadFails)

/-! ### Character-level facts about the sanitizer -/

theorem char_eq_iff_toNat {a b : Char} : a = b ↔ a.toNat = b.toNat := by
  constructor
  · intro h; rw [h]
  · intro h
    have h2 := congrArg Char.ofNat h
    rwa [Char.ofNat_toNat, Char.ofNat_toNat] at h2

theorem isLowerAZ_iff {c : Char} :
    isLowerAZ c = true ↔ 97 ≤ c.toNat ∧ c.toNat ≤ 122 := by
  simp [isLowerAZ]

theorem isUpperAZ_iff {c : Char} :
    isUpperAZ c = true ↔ 65 ≤ c.toNat ∧ c.toNat ≤ 90 := by
  simp [isUpperAZ]

theorem isDigit09_iff {c : Char} :
    isDigit09 c = true ↔ 48 ≤ c.toNat ∧ c.toNat ≤ 57 := by
  simp [isDigit09]

theorem eq_underscore_iff {c : Char} : c = '_' ↔ c.toNat = 95 := by
  rw [char_eq_iff_toNat]; constructor <;> (intro h; exact h)

theorem isAlnumAscii_iff {c : Char} :
    isAlnumAscii c = true ↔
      (97 ≤ c.toNat ∧ c.toNat ≤ 122) ∨ (65 ≤ c.toNat ∧ c.toNat ≤ 90) ∨
        (48 ≤ c.toNat ∧ c.toNat ≤ 57) := by
  simp only [isAlnumAscii, isLowerAZ, isUpperAZ, isDigit09, Bool.or_eq_true,
    Bool.and_eq_true, decide_eq_true_iff]
  omega

theorem isKeyChar_iff {c : Char} :
    isKeyChar c = true ↔
      (97 ≤ c.toNat ∧ c.toNat ≤ 122) ∨ (48 ≤ c.toNat ∧ c.toNat ≤ 57) ∨
        c.toNat = 95 := by
  simp only [isKeyChar, isLowerAZ, isDigit09, Bool.or_eq_true,
    Bool.and_eq_true, decide_eq_true_iff, eq_underscore_iff]
  omega

theorem toNat_ofNat_valid (n : Nat) (h : n.isValidChar) :
    (Char.ofNat n).toNat = n := by
  simp [Char.ofNat, h, Char.ofNatAux, Char.toNat, UInt32.toNat, BitVec.toNat_ofNatLt]

theorem toLowerAscii_toNat {c : Char} (h : isUpperAZ c = true) :
    (toLowerAscii c).toNat = c.toNat + 32 := by
  have hb := isUpperAZ_iff.mp h
  have hv : (c.toNat + 32).isValidChar := Or.inl (by omega)
  unfold toLowerAscii
  rw [if_pos h]
  exact toNat_ofNat_valid _ hv

theorem toLowerAscii_of_not_upper {c : Char} (h : isUpperAZ c = false) :
    toLowerAscii c = c := by
  unfold toLowerAscii
  rw [if_neg]
  rw [h]
  exact Bool.false_ne_true

theorem toUnderscore_mem (c : Char) :
    toUnderscore c = '_' ∨ isAlnumAscii (toUnderscore c) = true := by
  unfold toUnderscore
  by_cases h : isAlnumAscii c = true
  · rw [if_pos h]; right; exact h
  · rw [if_neg h]; left; rfl

theorem toLowerAscii_eq_underscore {c : Char} :
    toLowerAscii c = '_' ↔ c = '_' := by
  by_cases h : isUpperAZ c = true
  · have hb := isUpperAZ_iff.mp h
    have ht := toLowerAscii_toNat h
    rw [eq_underscore_iff, eq_underscore_iff, ht]
    omega
  · have h2 : isUpperAZ c = false := Bool.eq_false_iff.mpr h
    rw [toLowerAscii_of_not_upper h2]

theorem isKeyChar_toLowerAscii {c : Char}
    (h : c = '_' ∨ isAlnumAscii c = true) : isKeyChar (toLowerAscii c) = true := by
  rcases h with h | h
  · subst h; decide
  · rw [isAlnumAscii_iff] at h
    by_cases hu : isUpperAZ c = true
    · have hb := isUpperAZ_iff.mp hu
      have ht := toLowerAscii_toNat hu
      rw [isKeyChar_iff, ht]
      left; omega
    · rw [isUpperAZ_iff] at hu
      have h2 : isUpperAZ c = false := by
        apply Bool.eq_false_iff.mpr
        intro h3
        rw [isUpperAZ_iff] at h3
        exact hu h3
      rw [toLowerAscii_of_not_upper h2, isKeyChar_iff]
      omega

theorem not_upper_of_isKeyChar {c : Char} (h : isKeyChar c = true) :
    isUpperAZ c = false := by
  rw [isKeyChar_iff] at h
  apply Bool.eq_false_iff.mpr
  intro h3
  rw [isUpperAZ_iff] at h3
  omega

theorem toUnderscore_of_isKeyChar {c : Char} (h : isKeyChar c = true) :
    toUnderscore c = c := by
  unfold toUnderscore
  by_cases ha : isAlnumAscii c = true
  · rw [if_pos ha]
  · rw [if_neg ha]
    rw [isKeyChar_iff] at h
    rw [isAlnumAscii_iff] at ha
    have h2 : c = '_' := by rw [eq_underscore_iff]; omega
    exact h2.symm

theorem toLowerAscii_of_isKeyChar {c : Char} (h : isKeyChar c = true) :
    toLowerAscii c = c :=
  toLowerAscii_of_not_upper (not_upper_of_isKeyChar h)

/-! ### List-level facts about the sanitizer's passes -/

theorem collapse_head (l : List Char) :
    (collapseUnderscores l).head? = l.head? := by
  induction l with
  | nil => rfl
  | cons a t ih =>
    cases t with
    | nil => rfl
    | cons b rest =>
      simp only [collapseUnderscores]
      by_cases hab : (a = '_' && b = '_') = true
      · rw [if_pos hab]
        rw [ih]
        simp only [Bool.and_eq_true, decide_eq_true_iff] at hab
        simp [hab.1, hab.2]
      · rw [if_neg hab]
        rfl

theorem collapse_mem {l : List Char} {c : Char}
    (h : c ∈ collapseUnderscores l) : c ∈ l := by
  induction l with
  | nil => simp [collapseUnderscores] at h
  | cons a t ih =>
    cases t with
    | nil => simpa [collapseUnderscores] using h
    | cons b rest =>
      simp only [collapseUnderscores] at h
      by_cases hab : (a = '_' && b = '_') = true
      · rw [if_pos hab] at h
        exact List.mem_cons_of_mem a (ih h)
      · rw [if_neg hab] at h
        rcases List.mem_cons.mp h with h1 | h1
        · exact h1 ▸ List.mem_cons_self a _
        · exact List.mem_cons_of_mem a (ih h1)

theorem noDouble_cons_of {a : Char} {l : List Char} (h1 : noDouble l = true)
    (h2 : ∀ b, l.head? = some b → (a = '_' && b = '_') = false) :
    noDouble (a :: l) = true := by
  cases l with
  | nil => rfl
  | cons b t =>
    simp only [noDouble, Bool.and_eq_true, Bool.not_eq_eq_eq_not, Bool.not_true]
    exact ⟨h2 b rfl, h1⟩

theorem noDouble_tail {a : Char} {l : List Char}
    (h : noDouble (a :: l) = true) : noDouble l = true := by
  cases l with
  | nil => rfl
  | cons b t =>
    simp only [noDouble, Bool.and_eq_true] at h
    exact h.2

theorem collapse_noDouble (l : List Char) :
    noDouble (collapseUnderscores l) = true := by
  induction l with
  | nil => rfl
  | cons a t ih =>
    cases t with
    | nil => rfl
    | cons b rest =>
      simp only [collapseUnderscores]
      by_cases hab : (a = '_' && b = '_') = true
      · rw [if_pos hab]
        exact ih
      · rw [if_neg hab]
        apply noDouble_cons_of ih
        intro b2 hb2
        rw [collapse_head] at hb2
        simp only [List.head?_cons, Option.some.injEq] at hb2
        subst hb2
        exact Bool.eq_false_iff.mpr hab

theorem collapse_eq_self {l : List Char} (h : noDouble l = true) :
    collapseUnderscores l = l := by
  induction l with
  | nil => rfl
  | cons a t ih =>
    cases t with
    | nil => rfl
    | cons b rest =>
      simp only [noDouble, Bool.and_eq_true, Bool.not_eq_eq_eq_not,
        Bool.not_true] at h
      simp only [collapseUnderscores]
      rw [if_neg (by rw [h.1]; exact Bool.false_ne_true)]
      rw [ih h.2]

theorem stripLeading_head {l : List Char} (h : noDouble l = true) :
    (stripLeading l).head? ≠ some '_' := by
  cases l with
  | nil => simp [stripLeading]
  | cons c t =>
    by_cases hc : c = '_'
    · simp only [stripLeading, if_pos hc]
      cases t with
      | nil => simp
      | cons b r =>
        simp only [noDouble, Bool.and_eq_true, Bool.not_eq_eq_eq_not,
          Bool.not_true, Bool.and_eq_false_iff, decide_eq_false_iff_not] at h
        rcases h.1 with hb | hb
        · exact absurd hc hb
        · simp only [List.head?_cons, ne_eq, Option.some.injEq]
          exact hb
    · simp only [stripLeading, if_neg hc]
      simp only [List.head?_cons, ne_eq, Option.some.injEq]
      exact hc

theorem stripLeading_noDouble {l : List Char} (h : noDouble l = true) :
    noDouble (stripLeading l) = true := by
  cases l with
  | nil => rfl
  | cons c t =>
    by_cases hc : c = '_'
    · simp only [stripLeading, if_pos hc]
      exact noDouble_tail h
    · simp only [stripLeading, if_neg hc]
      exact h

theorem stripLeading_mem {l : List Char} {c : Char}
    (h : c ∈ stripLeading l) : c ∈ l := by
  cases l with
  | nil => simp [stripLeading] at h
  | cons a t =>
    by_cases ha : a = '_'
    · rw [stripLeading, if_pos ha] at h
      exact List.mem_cons_of_mem a h
    · rwa [stripLeading, if_neg ha] at h

theorem noDouble_take {l : List Char} (h : noDouble l = true) (n : Nat) :
    noDouble (l.take n) = true := by
  induction l generalizing n with
  | nil => simp [noDouble]
  | cons a t ih =>
    cases n with
    | zero => rfl
    | succ m =>
      rw [List.take_succ_cons]
      cases t with
      | nil => simp [noDouble]
      | cons b rest =>
        cases m with
        | zero => rfl
        | succ k =>
          rw [List.take_succ_cons]
          simp only [noDouble, Bool.and_eq_true] at h ⊢
          refine ⟨h.1, ?_⟩
          have h2 := ih h.2 (k + 1)
          rwa [List.take_succ_cons] at h2

theorem head?_take {l : List Char} {n : Nat} {c : Char}
    (h : (l.take n).head? = some c) : l.head? = some c := by
  cases n with
  | zero => simp at h
  | succ m =>
    cases l with
    | nil => simp at h
    | cons a t => simpa using h

theorem getLast?_dropLast_ne {l : List Char} (h : noDouble l = true)
    (h2 : l.getLast? = some '_') : l.dropLast.getLast? ≠ some '_' := by
  induction l with
  | nil => simp at h2
  | cons a t ih =>
    cases t with
    | nil =>
      simp
    | cons b rest =>
      simp only [noDouble, Bool.and_eq_true, Bool.not_eq_eq_eq_not,
        Bool.not_true, Bool.and_eq_false_iff, decide_eq_false_iff_not] at h
      rw [List.getLast?_cons_cons] at h2
      rw [List.dropLast_cons₂]
      cases rest with
      | nil =>
        simp only [List.getLast?_singleton, Option.some.injEq] at h2
        simp only [List.dropLast_single, List.getLast?_singleton, ne_eq,
          Option.some.injEq]
        rcases h.1 with ha | hb
        · exact ha
        · exact absurd h2 hb
      | cons r rs =>
        have h3 := ih h.2 h2
        rw [List.dropLast_cons₂] at h3 ⊢
        rw [List.getLast?_cons_cons]
        cases rs with
        | nil => exact h3
        | cons q qs => exact h3

theorem stripTrailing_getLast {l : List Char} (h : noDouble l = true) :
    (stripTrailing l).getLast? ≠ some '_' := by
  unfold stripTrailing
  by_cases hl : l.getLast? = some '_'
  · rw [if_pos hl]
    exact getLast?_dropLast_ne h hl
  · rw [if_neg hl]
    exact hl

theorem stripTrailing_noDouble {l : List Char} (h : noDouble l = true) :
    noDouble (stripTrailing l) = true := by
  unfold stripTrailing
  by_cases hl : l.getLast? = some '_'
  · rw [if_pos hl, List.dropLast_eq_take]
    exact noDouble_take h _
  · rw [if_neg hl]
    exact h

theorem stripTrailing_head {l : List Char} (h : l.head? ≠ some '_') :
    (stripTrailing l).head? ≠ some '_' := by
  unfold stripTrailing
  by_cases hl : l.getLast? = some '_'
  · rw [if_pos hl, List.dropLast_eq_take]
    intro h2
    exact h (head?_take h2)
  · rwa [if_neg hl]

theorem stripTrailing_mem {l : List Char} {c : Char}
    (h : c ∈ stripTrailing l) : c ∈ l := by
  unfold stripTrailing at h
  by_cases hl : l.getLast? = some '_'
  · rw [if_pos hl, List.dropLast_eq_take] at h
    exact List.mem_of_mem_take h
  · rwa [if_neg hl] at h

theorem stripTrailing_length (l : List Char) :
    (stripTrailing l).length ≤ l.length := by
  unfold stripTrailing
  by_cases hl : l.getLast? = some '_'
  · rw [if_pos hl, List.dropLast_eq_take, List.length_take]
    omega
  · rw [if_neg hl]

theorem stripTrailing_ne_nil {l : List Char} (h1 : l ≠ [])
    (h2 : l.head? ≠ some '_') : stripTrailing l ≠ [] := by
  cases l with
  | nil => exact absurd rfl h1
  | cons a t =>
    unfold stripTrailing
    by_cases hl : (a :: t).getLast? = some '_'
    · rw [if_pos hl]
      cases t with
      | nil =>
        simp only [List.getLast?_singleton, Option.some.injEq] at hl
        simp only [List.head?_cons, ne_eq, Option.some.injEq] at h2
        exact absurd hl h2
      | cons b rest =>
        rw [List.dropLast_cons₂]
        exact List.cons_ne_nil a _
    · rw [if_neg hl]
      exact List.cons_ne_nil a t

theorem map_toLower_noDouble {l : List Char} (h : noDouble l = true) :
    noDouble (l.map toLowerAscii) = true := by
  induction l with
  | nil => rfl
  | cons a t ih =>
    cases t with
    | nil => rfl
    | cons b rest =>
      simp only [List.map_cons] at ih ⊢
      simp only [noDouble, Bool.and_eq_true, Bool.not_eq_eq_eq_not,
        Bool.not_true, Bool.and_eq_false_iff, decide_eq_false_iff_not] at h ⊢
      refine ⟨?_, ih h.2⟩
      rcases h.1 with ha | hb
      · exact Or.inl (fun h3 => ha (toLowerAscii_eq_underscore.mp h3))
      · exact Or.inr (fun h3 => hb (toLowerAscii_eq_underscore.mp h3))

theorem map_toLower_head {l : List Char} (h : l.head? ≠ some '_') :
    (l.map toLowerAscii).head? ≠ some '_' := by
  cases l with
  | nil => simp
  | cons a t =>
    simp only [List.map_cons, List.head?_cons, ne_eq, Option.some.injEq] at h ⊢
    intro h2
    exact h (toLowerAscii_eq_underscore.mp h2)

theorem map_toUnderscore_id {l : List Char}
    (h : ∀ c ∈ l, isKeyChar c = true) : l.map toUnderscore = l := by
  induction l with
  | nil => rfl
  | cons a t ih =>
    rw [List.map_cons, toUnderscore_of_isKeyChar (h a (List.mem_cons_self a t)),
      ih (fun c hc => h c (List.mem_cons_of_mem a hc))]

theorem map_toLower_id {l : List Char}
    (h : ∀ c ∈ l, isKeyChar c = true) : l.map toLowerAscii = l := by
  induction l with
  | nil => rfl
  | cons a t ih =>
    rw [List.map_cons, toLowerAscii_of_isKeyChar (h a (List.mem_cons_self a t)),
      ih (fun c hc => h c (List.mem_cons_of_mem a hc))]

theorem stripLeading_of_head {l : List Char} (h : l.head? ≠ some '_') :
    stripLeading l = l := by
  cases l with
  | nil => rfl
  | cons a t =>
    rw [stripLeading, if_neg]
    intro ha
    subst ha
    exact h rfl

theorem stripTrailing_of_getLast {l : List Char} (h : l.getLast? ≠ some '_') :
    stripTrailing l = l := by
  unfold stripTrailing
  rw [if_neg h]

theorem string_mk_data (s : String) : String.mk s.data = s := rfl

/-- Invariants of the full sanitizer pipeline on a raw character list:
every output character is a lowercase alphanumeric or an underscore, the
output does not begin with an underscore, it has no two adjacent
underscores, and it has at most 50 characters. -/
theorem pipeline_inv (l0 : List Char) :
    (∀ c ∈ ((stripTrailing (stripLeading
        (collapseUnderscores (l0.map toUnderscore)))).map toLowerAscii).take 50,
      isKeyChar c = true) ∧
    (((stripTrailing (stripLeading
        (collapseUnderscores (l0.map toUnderscore)))).map toLowerAscii).take 50).head?
      ≠ some '_' ∧
    noDouble (((stripTrailing (stripLeading
        (collapseUnderscores (l0.map toUnderscore)))).map toLowerAscii).take 50)
      = true ∧
    (((stripTrailing (stripLeading
        (collapseUnderscores (l0.map toUnderscore)))).map toLowerAscii).take 50).length
      ≤ 50 := by
  have h2nd : noDouble (collapseUnderscores (l0.map toUnderscore)) = true :=
    collapse_noDouble _
  have h3h := stripLeading_head h2nd
  have h3nd := stripLeading_noDouble h2nd
  have h4h := stripTrailing_head h3h
  have h4nd := stripTrailing_noDouble h3nd
  have hmem : ∀ c ∈ stripTrailing (stripLeading
      (collapseUnderscores (l0.map toUnderscore))),
      c = '_' ∨ isAlnumAscii c = true := by
    intro c hc
    have h5 : c ∈ l0.map toUnderscore :=
      collapse_mem (stripLeading_mem (stripTrailing_mem hc))
    rcases List.mem_map.mp h5 with ⟨a, _, ha⟩
    rw [← ha]
    exact toUnderscore_mem a
  refine ⟨?_, ?_, ?_, ?_⟩
  · intro c hc
    rcases List.mem_map.mp (List.mem_of_mem_take hc) with ⟨a, ha, rfl⟩
    exact isKeyChar_toLowerAscii (hmem a ha)
  · intro hh
    exact map_toLower_head h4h (head?_take hh)
  · exact noDouble_take (map_toLower_noDouble h4nd) 50
  · rw [List.length_take]
    omega

/-- The invariants of `pipeline_inv`, read off the `sanitizeFileName`
output string. -/
theorem sanitize_inv (x : String) :
    (∀ c ∈ (sanitizeFileName x).data, isKeyChar c = true) ∧
    (sanitizeFileName x).data.head? ≠ some '_' ∧
    noDouble (sanitizeFileName x).data = true ∧
    (sanitizeFileName x).data.length ≤ 50 :=
  pipeline_inv x.data

/-- Applying the sanitizer to its own output only removes the trailing
underscore that truncation may have exposed. -/
theorem sanitize_of_sanitized (x : String) :
    sanitizeFileName (sanitizeFileName x) =
      String.mk (stripTrailing (sanitizeFileName x).data) := by
  obtain ⟨hall, hhead, hnd, hlen⟩ := sanitize_inv x
  have hall4 : ∀ c ∈ stripTrailing (sanitizeFileName x).data, isKeyChar c = true :=
    fun c hc => hall c (stripTrailing_mem hc)
  show String.mk (((stripTrailing (stripLeading
      (collapseUnderscores ((sanitizeFileName x).data.map toUnderscore)))).map
        toLowerAscii).take 50) = _
  rw [map_toUnderscore_id hall, collapse_eq_self hnd, stripLeading_of_head hhead,
    map_toLower_id hall4,
    List.take_of_length_le (le_trans (stripTrailing_length _) hlen)]


/-! ### Claims about the sanitizer (C4, C5, C10) -/

/-- C4 counterexample: on twenty-six space-separated letters the sanitizer
output is nonempty, 50 characters long, and ends in an underscore, so it
fails the anchored pattern with no trailing underscore that the claim
asserts for every input. -/
theorem c4_counterexample :
    sanitizeFileName alternatingInput =
        "a_a_a_a_a_a_a_a_a_a_a_a_a_a_a_a_a_a_a_a_a_a_a_a_a_" ∧
      sanitizeFileName alternatingInput ≠ "" ∧
      matchesKeyPattern (sanitizeFileName alternatingInput).data = false := by
  refine ⟨by decide, by decide, by decide⟩

/-- C4 (amended): for every input string, the sanitizer output is empty or
matches the relaxed pattern that also allows one trailing underscore
(lowercase alphanumerics, single underscore separators, no leading
underscore, no double underscore), and its length is at most 50.  The
trailing underscore is the one deviation `slice(0, 50)` can introduce,
since the truncation runs after the edge-stripping pass. -/
theorem c4_amended : ∀ x : String,
    sanitizeFileName x = "" ∨
      (matchesKeyPatternLoose (sanitizeFileName x).data = true ∧
        (sanitizeFileName x).length ≤ 50) := by
  intro x
  obtain ⟨hall, hhead, hnd, hlen⟩ := sanitize_inv x
  by_cases hr : (sanitizeFileName x).data = []
  · left
    have h2 := congrArg String.mk hr
    rw [string_mk_data] at h2
    exact h2
  · right
    refine ⟨?_, hlen⟩
    have hne : (sanitizeFileName x).data.isEmpty = false := by
      cases hdata : (sanitizeFileName x).data with
      | nil => exact absurd hdata hr
      | cons a t => rfl
    simp only [matchesKeyPatternLoose, Bool.and_eq_true, Bool.not_eq_true',
      decide_eq_false_iff_not, List.all_eq_true]
    exact ⟨⟨⟨hne, hall⟩, hhead⟩, hnd⟩

/-- C5 counterexample: sanitizing the sanitizer's own output is not always
the identity — when truncation leaves a trailing underscore, the second
pass strips it. -/
theorem c5_counterexample :
    sanitizeFileName (sanitizeFileName alternatingInput) ≠
      sanitizeFileName alternatingInput := by
  decide

/-- C5 (amended): a second application of the sanitizer equals the first
output with its trailing underscore (if any) removed; in particular the
sanitizer is idempotent on every input whose sanitized form does not end
in an underscore. -/
theorem c5_amended : ∀ x : String,
    sanitizeFileName (sanitizeFileName x) =
        String.mk (stripTrailing (sanitizeFileName x).data) ∧
      ((sanitizeFileName x).data.getLast? ≠ some '_' →
        sanitizeFileName (sanitizeFileName x) = sanitizeFileName x) := by
  intro x
  refine ⟨sanitize_of_sanitized x, fun h => ?_⟩
  rw [sanitize_of_sanitized x, stripTrailing_of_getLast h, string_mk_data]

/-- C5 witness: a concrete input on which the hypothesis of the amended
claim's second part holds and idempotence follows. -/
theorem c5_witness :
    sanitizeFileName (sanitizeFileName "My Sunset! Photo") =
      sanitizeFileName "My Sunset! Photo" :=
  (c5_amended "My Sunset! Photo").2 (by decide)

/-- C10: the sanitizer output never begins with an underscore and never
contains two adjacent underscores, and the only separator anomaly
truncation can introduce is a single trailing underscore: removing one
trailing underscore always yields a string matching the strict key
pattern (unless the output is empty). -/
theorem c10_separators : ∀ x : String,
    (sanitizeFileName x).data.head? ≠ some '_' ∧
      noDouble (sanitizeFileName x).data = true ∧
      (sanitizeFileName x = "" ∨
        matchesKeyPattern (stripTrailing (sanitizeFileName x).data) = true) := by
  intro x
  obtain ⟨hall, hhead, hnd, hlen⟩ := sanitize_inv x
  refine ⟨hhead, hnd, ?_⟩
  by_cases hr : (sanitizeFileName x).data = []
  · left
    have h2 := congrArg String.mk hr
    rw [string_mk_data] at h2
    exact h2
  · right
    have hne : (stripTrailing (sanitizeFileName x).data).isEmpty = false := by
      cases hdata : stripTrailing (sanitizeFileName x).data with
      | nil => exact absurd hdata (stripTrailing_ne_nil hr hhead)
      | cons a t => rfl
    simp only [matchesKeyPattern, Bool.and_eq_true, Bool.not_eq_true',
      decide_eq_false_iff_not, List.all_eq_true]
    exact ⟨⟨⟨⟨hne, fun c hc => hall c (stripTrailing_mem hc)⟩,
      stripTrailing_head hhead⟩, stripTrailing_getLast hnd⟩,
      stripTrailing_noDouble hnd⟩

/-- C10 witness: the properties at the truncation edge case itself. -/
theorem c10_witness :
    (sanitizeFileName alternatingInput).data.head? ≠ some '_' ∧
      noDouble (sanitizeFileName alternatingInput).data = true ∧
      (sanitizeFileName alternatingInput = "" ∨
        matchesKeyPattern (stripTrailing (sanitizeFileName alternatingInput).data)
          = true) :=
  c10_separators alternatingInput

/-! ### Claims about the gallery refresh (C1, C2, C9) -/

/-- C1 counterexample: a listing that contains the placeholder name yields
an output of the same length as the raw listing — the placeholder is
resolved to the empty string in place, not excluded, so the output does
not have one fewer entry. -/
theorem c1_counterexample :
    fetchImages false (some ["x.png", ".emptyFolderPlaceholder"])
        (fun _ => SignedUrlResult.success (some "https://signed")) [] =
        ["https://signed", ""] ∧
      (fetchImages false (some ["x.png", ".emptyFolderPlaceholder"])
          (fun _ => SignedUrlResult.success (some "https://signed")) []).length ≠
        (["x.png", ".emptyFolderPlaceholder"] : List String).length - 1 := by
  refine ⟨rfl, by decide⟩

/-- C1 (amended): gallery assembly does not exclude the placeholder entry;
it maps `.emptyFolderPlaceholder` to the empty-string URL at its original
position, so the output always has exactly the same length as the raw
listing. -/
theorem c1_amended : ∀ (names : List String) (resolve : String → SignedUrlResult)
    (prev : List String),
    (fetchImages false (some names) resolve prev).length = names.length ∧
      ∀ i (h : i < names.length),
        names[i] = ".emptyFolderPlaceholder" →
          (fetchImages false (some names) resolve prev)[i]? = some "" := by
  intro names resolve prev
  refine ⟨List.length_map names (resolveImage resolve), ?_⟩
  intro i h hph
  show (names.map (resolveImage resolve))[i]? = some ""
  rw [List.getElem?_map, List.getElem?_eq_getElem h]
  simp [resolveImage, hph]

/-- C1 witness: a concrete placeholder entry resolves to `""` in place. -/
theorem c1_witness :
    (fetchImages false (some [".emptyFolderPlaceholder", "x.png"])
        (fun _ => SignedUrlResult.failure) [])[0]? = some "" :=
  (c1_amended [".emptyFolderPlaceholder", "x.png"]
      (fun _ => SignedUrlResult.failure) []).2 0 (by decide) (by decide)

/-- C2: for a listing of non-placeholder names, the gallery output has the
same length as the input; position `i` of the output is exactly the
resolution of position `i` of the input (so the input order is preserved
and no entry is removed or reordered); and a name whose signed-URL
resolution fails contributes the empty string at its original position.
The embedding is a total function, so no per-name failure escapes to the
caller. -/
theorem c2_order_preserved : ∀ (names : List String) (resolve : String → SignedUrlResult)
    (prev : List String),
    (∀ n ∈ names, n ≠ ".emptyFolderPlaceholder") →
    ((fetchImages false (some names) resolve prev).length = names.length ∧
      ∀ i (h : i < names.length),
        (fetchImages false (some names) resolve prev)[i]? =
            some (resolveImage resolve names[i]) ∧
          (resolve names[i] = SignedUrlResult.failure →
            (fetchImages false (some names) resolve prev)[i]? = some "")) := by
  intro names resolve prev h0
  refine ⟨List.length_map names (resolveImage resolve), ?_⟩
  intro i h
  have hget : (fetchImages false (some names) resolve prev)[i]? =
      some (resolveImage resolve names[i]) := by
    show (names.map (resolveImage resolve))[i]? = _
    rw [List.getElem?_map, List.getElem?_eq_getElem h]
    rfl
  refine ⟨hget, fun hfail => ?_⟩
  rw [hget]
  have hne : names[i] ≠ ".emptyFolderPlaceholder" := h0 _ (List.getElem_mem h)
  simp [resolveImage, hne, hfail]

/-- C2 witness: the spec's own example — names `a`, `b`, `c` where `b`
fails — has the empty string at position 1. -/
theorem c2_witness :
    (fetchImages false (some ["a", "b", "c"])
        (fun n => if n = "b" then SignedUrlResult.failure
          else SignedUrlResult.success (some (n ++ "-url"))) [])[1]? = some "" :=
  ((c2_order_preserved ["a", "b", "c"]
      (fun n => if n = "b" then SignedUrlResult.failure
        else SignedUrlResult.success (some (n ++ "-url"))) []
      (by decide)).2 1 (by decide)).2 (by decide)

/-- C9: a listing error (or a null listing) leaves the displayed gallery
list unchanged, and on success the displayed list is replaced in a single
update by the complete, order-preserving resolution of the listing. -/
theorem c9_refresh_guard : ∀ (resolve : String → SignedUrlResult) (prev : List String),
    (∀ data, fetchImages true data resolve prev = prev) ∧
      fetchImages false none resolve prev = prev ∧
      ∀ names, fetchImages false (some names) resolve prev =
        names.map (resolveImage resolve) := by
  intro resolve prev
  exact ⟨fun _ => rfl, rfl, fun _ => rfl⟩

/-! ### Claims about the generate flow (C3, C7) -/

/-- C3: the code violates the claim.  On a success-status response whose
body decodes to an empty artifacts array, the generate flow throws (the
error does propagate) but leaves the busy flag set: `isLoading` is still
`true` because `setIsLoading(false)` is only reached on the non-ok branch
and after a successful decode. -/
theorem c3_busy_not_cleared :
    handleGenerateImage { ok := true, body := some { artifacts := some [] } } =
      { outcome := Except.error GenFlowError.scriptError, isLoading := true } :=
  rfl

/-- C7 counterexample: a success response whose first artifact lacks the
`base64` field does not fail at all — the flow succeeds and stores the
data URI built from the literal string `undefined`. -/
theorem c7_counterexample :
    (handleGenerateImage
        { ok := true,
          body := some { artifacts := some [⟨none, 0, "SUCCESS"⟩] } }).outcome =
      Except.ok "data:image/png;base64,undefined" :=
  rfl

/-- C7 (amended): a non-success status yields the thrown generation error
and no partial result; an unparsable body, a missing artifacts array, or
an empty artifacts array yields a decode-stage script error; but a first
artifact with a missing `base64` field does not fail — the flow succeeds
with the literal payload `undefined`. -/
theorem c7_amended : ∀ resp : GenerationHttpResponse,
    (resp.ok = false →
      handleGenerateImage resp =
        { outcome := Except.error GenFlowError.generationError,
          isLoading := false }) ∧
      (resp.ok = true → resp.body = none →
        (handleGenerateImage resp).outcome = Except.error GenFlowError.scriptError) ∧
      (∀ b, resp.ok = true → resp.body = some b → b.artifacts = none →
        (handleGenerateImage resp).outcome = Except.error GenFlowError.scriptError) ∧
      (∀ b, resp.ok = true → resp.body = some b → b.artifacts = some [] →
        (handleGenerateImage resp).outcome = Except.error GenFlowError.scriptError) ∧
      (∀ b a rest, resp.ok = true → resp.body = some b →
        b.artifacts = some (a :: rest) → a.base64 = none →
        (handleGenerateImage resp).outcome =
          Except.ok "data:image/png;base64,undefined") := by
  intro resp
  obtain ⟨ok, body⟩ := resp
  refine ⟨?_, ?_, ?_, ?_, ?_⟩
  · intro h1
    subst h1
    rfl
  · intro h1 h2
    subst h1
    subst h2
    rfl
  · intro b h1 h2 h3
    subst h1
    subst h2
    obtain ⟨arts⟩ := b
    subst h3
    rfl
  · intro b h1 h2 h3
    subst h1
    subst h2
    obtain ⟨arts⟩ := b
    subst h3
    rfl
  · intro b a rest h1 h2 h3 h4
    subst h1
    subst h2
    obtain ⟨arts⟩ := b
    subst h3
    obtain ⟨b64, sd, fr⟩ := a
    subst h4
    rfl

/-- C7 witness: the non-success branch at a concrete response. -/
theorem c7_witness :
    handleGenerateImage { ok := false, body := none } =
      { outcome := Except.error GenFlowError.generationError,
        isLoading := false } :=
  (c7_amended { ok := false, body := none }).1 rfl

/-! ### Claims about the save flow and the transcoder (C6, C8) -/

/-- C6: the save flow is a no-op without a generated image; with one whose
payload decodes, it uploads the decoded bytes under the key
`sanitizeFileName(prompt)` with content type `image/png`, and an upload
failure still ends in the `saved` outcome (only logged), never in a thrown
error; and the prompt `a red fox` yields the key `a_red_fox`. -/
theorem c6_save_flow :
    (∀ prompt uploadFails,
        handleSaveImage none prompt uploadFails = SaveOutcome.noop) ∧
      (∀ img prompt uploadFails bytes,
        atob (stripDataUri img.data) = some bytes →
        handleSaveImage (some img) prompt uploadFails =
          SaveOutcome.saved
            { key := sanitizeFileName prompt, bytes := bytes,
              contentType := "image/png" } (!uploadFails)) ∧
      sanitizeFileName "a red fox" = "a_red_fox" := by
  refine ⟨fun _ _ => rfl, ?_, by decide⟩
  intro img prompt uploadFails bytes h
  simp [handleSaveImage, h]

/-- C6 witness: the end-to-end example — saving the data URI produced for
the prompt `a red fox` uploads bytes `ABC` under key `a_red_fox` with
content type `image/png`, and a failing upload is still only reported. -/
theorem c6_witness :
    handleSaveImage (some "data:image/png;base64,QUJD") "a red fox" true =
      SaveOutcome.saved
        { key := "a_red_fox", bytes := [65, 66, 67], contentType := "image/png" }
        false := by
  have h := c6_save_flow.2.1 "data:image/png;base64,QUJD" "a red fox" true
    [65, 66, 67] (by decide)
  have h2 : sanitizeFileName "a red fox" = "a_red_fox" := by decide
  rw [h2] at h
  exact h

theorem stripDataUri_concat (l : List Char) :
    stripDataUri ("data:image/png;base64,".data ++ l) = l := rfl

theorem stripDataUri_of_base64 {l : List Char}
    (h : ∀ c ∈ l, (b64Index c).isSome = true) : stripDataUri l = l := by
  unfold stripDataUri
  rw [if_neg]
  intro heq
  have h4 : (l.take 11)[4]? = some ':' := by rw [heq]; rfl
  rw [List.getElem?_take, if_pos (by decide : (4 : Nat) < 11)] at h4
  have hm : ':' ∈ l := List.getElem?_mem h4
  have h5 := h ':' hm
  have h6 : b64Index ':' = none := by decide
  rw [h6] at h5
  simp at h5

/-- C8: prepending the data-URI marker `data:image/png;base64,` to a
base64 string is invisible to the transcoder — the marker is stripped
before decoding, and a base64 string without the marker is decoded
unchanged, so both decode to the same bytes. -/
theorem c8_strip_marker : ∀ s : String,
    (∀ c ∈ s.data, (b64Index c).isSome = true) →
    (stripDataUri (("data:image/png;base64," ++ s).data) = s.data ∧
      toBytes ("data:image/png;base64," ++ s) = toBytes s) := by
  intro s h
  have hd : ("data:image/png;base64," ++ s).data =
      "data:image/png;base64,".data ++ s.data := String.data_append _ _
  constructor
  · rw [hd]
    exact stripDataUri_concat s.data
  · unfold toBytes
    rw [hd, stripDataUri_concat, stripDataUri_of_base64 h]

/-- C8 witness: the bytes `ABC` decode identically with and without the
data-URI marker. -/
theorem c8_witness :
    toBytes ("data:image/png;base64," ++ "QUJD") = toBytes "QUJD" :=
  (c8_strip_marker "QUJD" (by decide)).2

end SpecCheck
